import Mathlib

deriving instance DecidableEq for Except

/-!
Shallow embedding of `pybamm/models/base_model.py` (class `BaseModel`):
the equation registry, its setters with scalar-lifting and domain checks,
the submodel composition operation `update`, and the well-posedness
checker `check_well_posedness`.

The symbolic expression type is an external collaborator of the modelled
code; it is embedded through exactly the interface the code consumes:
`id`, `domain`, `pre_order()`, `has_spatial_derivatives()` and Scalar
construction.  Python dictionaries keyed by expressions use the
expression's identity token for equality and membership, and are embedded
as association lists whose operations compare keys by that token.
Exceptions are embedded as explicit error results: an operation that can
raise returns its result state together with an optional error, so that
the state an exception leaves behind is visible in the embedding.
-/

/-- Symbolic expression node: the external `pybamm` expression tree,
restricted to the interface consumed by `BaseModel` (identity `id`,
`domain`, `pre_order`, `has_spatial_derivatives`, and the `Scalar`
wrapper used to lift bare numbers). -/
inductive Expr where
  | scalar (v : Int)
  | evar (eid : Nat) (dom : List String)
  | grad (eid : Nat) (dom : List String) (a : Expr)
  | binop (eid : Nat) (dom : List String) (a b : Expr)
deriving Repr, DecidableEq

/-- The stable identity token (`Symbol.id`). -/
def Expr.eid : Expr → Nat
  | .scalar _ => 0
  | .evar i _ => i
  | .grad i _ _ => i
  | .binop i _ _ _ => i

/-- The `domain` attribute; a `Scalar` carries the empty domain. -/
def Expr.domain : Expr → List String
  | .scalar _ => []
  | .evar _ d => d
  | .grad _ d _ => d
  | .binop _ d _ _ => d

/-- `pre_order()`: the expression followed by all sub-expressions. -/
def Expr.preOrder : Expr → List Expr
  | .scalar v => [.scalar v]
  | .evar i d => [.evar i d]
  | .grad i d a => .grad i d a :: a.preOrder
  | .binop i d a b => .binop i d a b :: (a.preOrder ++ b.preOrder)

/-- `has_spatial_derivatives()`: whether a spatial-derivative operator
(`grad`) occurs anywhere in the expression. -/
def Expr.hasSpatialDerivatives : Expr → Bool
  | .scalar _ => false
  | .evar _ _ => false
  | .grad _ _ _ => true
  | .binop _ _ a b => a.hasSpatialDerivatives || b.hasSpatialDerivatives

/-- The numeric value when the expression is a `Scalar` wrapper. -/
def Expr.scalarValue : Expr → Option Int
  | .scalar v => some v
  | _ => none

/-- String rendering of an expression, used in error messages where the
Python code interpolates the symbol with `format`. -/
def Expr.str : Expr → String
  | .scalar v => "Scalar(" ++ toString v ++ ")"
  | .evar i _ => "Variable(" ++ toString i ++ ")"
  | .grad _ _ a => "grad(" ++ a.str ++ ")"
  | .binop _ _ a b => "(" ++ a.str ++ " + " ++ b.str ++ ")"

/-- A dictionary value as supplied by a caller: either a bare number
(`numbers.Number`) or an expression. -/
inductive Value where
  | num (x : Int)
  | expr (e : Expr)
deriving Repr, DecidableEq

/-- Lifting of one entry: a bare number becomes `pybamm.Scalar`, an
expression is kept unchanged. -/
def liftValue : Value → Expr
  | .num x => .scalar x
  | .expr e => e

/-- The in-place lifting loop of `_set_dict` (and of the
`boundary_conditions` setter for one side dictionary): every numeric
value replaced by a `Scalar`, keys and order untouched. -/
def liftDict (d : List (Expr × Value)) : List (Expr × Expr) :=
  d.map fun p => (p.1, liftValue p.2)

section Dict

variable {α β K : Type} [DecidableEq K]

/-- Key membership of a Python dictionary, with key equality given by
the projection `keyOf` (for expression keys, the identity token). -/
def dmem (keyOf : α → K) (d : List (α × β)) (k : α) : Bool :=
  d.any fun p => decide (keyOf p.1 = keyOf k)

/-- Dictionary lookup `d[k]`. -/
def dfind (keyOf : α → K) (d : List (α × β)) (k : α) : Option β :=
  (d.find? fun p => decide (keyOf p.1 = keyOf k)).map (fun p => p.2)

/-- One-key store `d[k] = v`: an existing key keeps its position and its
original key object and receives the new value; a new key is appended. -/
def dinsert (keyOf : α → K) (d : List (α × β)) (k : α) (v : β) :
    List (α × β) :=
  if dmem keyOf d k then
    d.map fun p => if keyOf p.1 = keyOf k then (p.1, v) else p
  else
    d ++ [(k, v)]

/-- Python `d.update(e)`: fold `e`'s entries into `d` in order. -/
def dupdate (keyOf : α → K) (d e : List (α × β)) : List (α × β) :=
  e.foldl (fun acc p => dinsert keyOf acc p.1 p.2) d

/-- The list of key tokens of a dictionary, in insertion order. -/
def dids (keyOf : α → K) (d : List (α × β)) : List K :=
  d.map fun p => keyOf p.1

end Dict

/-- The errors the modelled methods can signal: `pybamm.DomainError`
raised by `_set_dict`, and `pybamm.ModelError` used as the message of
the assertions in `update` and `check_well_posedness`. -/
inductive PyError where
  | domainError (msg : String)
  | modelError (msg : String)
deriving Repr, DecidableEq

/-- The state of a `BaseModel`: the five equation registries, the
derived-variables map and the two lazily-populated concatenations. -/
structure BaseModel where
  rhs : List (Expr × Expr)
  algebraic : List Expr
  initial_conditions : List (Expr × Expr)
  initial_conditions_ydot : List (Expr × Expr)
  boundary_conditions : List (Expr × List (String × Expr))
  «variables» : List (String × Expr)
  concatenated_rhs : Option Expr
  concatenated_initial_conditions : Option Expr
deriving Repr, DecidableEq

/-- The empty model produced by `BaseModel.__init__`. -/
def BaseModel.empty : BaseModel :=
  ⟨[], [], [], [], [], [], none, none⟩

/-- The `DomainError` message of `_set_dict` (the `{}` hole filled with
the registry name). -/
def domMsg (name : String) : String :=
  "variable and equation in " ++ name ++ " must have the same domain"

/-- The domain-consistency test of `_set_dict`:
`all(variable.domain == equation.domain or equation.domain == [] ...)`. -/
def domainsOk (d : List (Expr × Expr)) : Bool :=
  d.all fun p => decide (p.1.domain = p.2.domain) || decide (p.2.domain = [])

/-- `BaseModel._set_dict(dict, name)`.  The loop first replaces every
numeric value of the caller's dictionary by a `Scalar` in place; then the
domain check runs and either the (same, mutated) dictionary is returned
or a `DomainError` is raised.  The first component is the state of the
caller's dictionary after the call — it is the lifted dictionary whether
or not the error is raised, since the mutation precedes the check. -/
def set_dict (d : List (Expr × Value)) (name : String) :
    List (Expr × Expr) × Option PyError :=
  let lifted := liftDict d
  if domainsOk lifted then (lifted, none)
  else (lifted, some (.domainError (domMsg name)))

/-- The `rhs` setter: `self._rhs = self._set_dict(rhs, "rhs")`.  Returns
the caller's dictionary state, the model state after the call, and the
raised error if any; on error the assignment does not execute, so the
model component is the unchanged receiver. -/
def BaseModel.set_rhs (m : BaseModel) (d : List (Expr × Value)) :
    List (Expr × Expr) × BaseModel × Option PyError :=
  match set_dict d "rhs" with
  | (cd, none) => (cd, { m with rhs := cd }, none)
  | (cd, some e) => (cd, m, some e)

/-- The `initial_conditions` setter. -/
def BaseModel.set_initial_conditions (m : BaseModel)
    (d : List (Expr × Value)) :
    List (Expr × Expr) × BaseModel × Option PyError :=
  match set_dict d "initial_conditions" with
  | (cd, none) => (cd, { m with initial_conditions := cd }, none)
  | (cd, some e) => (cd, m, some e)

/-- The `initial_conditions_ydot` setter. -/
def BaseModel.set_initial_conditions_ydot (m : BaseModel)
    (d : List (Expr × Value)) :
    List (Expr × Expr) × BaseModel × Option PyError :=
  match set_dict d "initial_conditions_ydot" with
  | (cd, none) => (cd, { m with initial_conditions_ydot := cd }, none)
  | (cd, some e) => (cd, m, some e)

/-- The `boundary_conditions` setter: numeric side values are
Scalar-lifted in place, no domain check, the (mutated) input dictionary
is stored. -/
def BaseModel.set_boundary_conditions (m : BaseModel)
    (bcs : List (Expr × List (String × Value))) : BaseModel :=
  { m with boundary_conditions := bcs.map fun p => (p.1, liftDict' p.2) }
where
  /-- Lifting of one side dictionary. -/
  liftDict' (sides : List (String × Value)) : List (String × Expr) :=
    sides.map fun q => (q.1, liftValue q.2)

/-- Key-token equality used by all expression-keyed dictionaries. -/
abbrev keyId : Expr → Nat := Expr.eid

/-- The four `dict.update` calls of the loop body of `BaseModel.update`:
merge the submodel's `rhs`, `initial_conditions`, `boundary_conditions`
and `variables` into the host's; `algebraic` and
`initial_conditions_ydot` are not touched. -/
def mergeDicts (m submodel : BaseModel) : BaseModel :=
  { m with
    rhs := dupdate keyId m.rhs submodel.rhs
    initial_conditions :=
      dupdate keyId m.initial_conditions submodel.initial_conditions
    boundary_conditions :=
      dupdate keyId m.boundary_conditions submodel.boundary_conditions
    «variables» := dupdate id m.«variables» submodel.«variables» }

/-- One iteration of the loop body of `BaseModel.update` for a single
submodel: build `vars = [id of submodel rhs keys] + [id of host rhs
keys]`, assert `len(vars) == len(set(vars))` — that is, that `vars` has
no duplicate — raising `ModelError("duplicate variables")` otherwise,
then merge. -/
def updateOne (m submodel : BaseModel) : Except PyError BaseModel :=
  if (dids keyId submodel.rhs ++ dids keyId m.rhs).Nodup then
    .ok (mergeDicts m submodel)
  else
    .error (.modelError "duplicate variables")

/-- `BaseModel.update(*submodels)`: iterate `updateOne` over the
submodels in the order given.  A raised error propagates, leaving the
host in its state at that point — so the result is the final host state
together with the error, if one was raised. -/
def BaseModel.update (m : BaseModel) :
    List BaseModel → BaseModel × Option PyError
  | [] => (m, none)
  | s :: rest =>
    match updateOne m s with
    | .ok m' => m'.update rest
    | .error e => (m, some e)

/-- The message of the missing-initial-condition assertion. -/
def icMsg (v : Expr) : String :=
  "no initial condition given for variable " ++ v.str

/-- The message of the missing-boundary-condition assertion. -/
def bcMsg (v eqn : Expr) : String :=
  "no boundary condition given for variable " ++ v.str
    ++ " with equation " ++ eqn.str

/-- First loop of `check_well_posedness`: for every key of `rhs`, assert
membership in `initial_conditions`. -/
def icPass (ics : List (Expr × Expr)) :
    List (Expr × Expr) → Except PyError Unit
  | [] => .ok ()
  | (v, _) :: rest =>
    if dmem keyId ics v then icPass ics rest
    else .error (.modelError (icMsg v))

/-- Whether some boundary-condition key contains, anywhere in its
`pre_order` traversal, an expression with the identity of `v`. -/
def bcCovered (bcs : List (Expr × List (String × Expr))) (v : Expr) :
    Bool :=
  bcs.any fun p => p.1.preOrder.any fun symbol => decide (symbol.eid = v.eid)

/-- Second loop of `check_well_posedness`: every `rhs` pair whose
equation has spatial derivatives must be covered by some
boundary-condition key. -/
def bcPass (bcs : List (Expr × List (String × Expr))) :
    List (Expr × Expr) → Except PyError Unit
  | [] => .ok ()
  | (v, eqn) :: rest =>
    if eqn.hasSpatialDerivatives then
      if bcCovered bcs v then bcPass bcs rest
      else .error (.modelError (bcMsg v eqn))
    else bcPass bcs rest

/-- `BaseModel.check_well_posedness()`: the initial-condition loop runs
first; only if it raises nothing does the boundary-condition loop run. -/
def BaseModel.check_well_posedness (m : BaseModel) : Except PyError Unit :=
  match icPass m.initial_conditions m.rhs with
  | .ok _ => bcPass m.boundary_conditions m.rhs
  | .error e => .error e

/-- `BaseModel.__getitem__`: `self.rhs[key]`. -/
def BaseModel.getItem (m : BaseModel) (key : Expr) : Option Expr :=
  dfind keyId m.rhs key


/-- A state variable on the electrolyte domain, used in the concrete
instances below. -/
def cVar : Expr := Expr.evar 1 ["electrolyte"]

/-- A second state variable, with a distinct identity. -/
def tVar : Expr := Expr.evar 2 ["electrolyte"]

/-- A variable sharing `cVar`'s identity token but written differently:
identity comparison treats it as the same state variable. -/
def cVarAlias : Expr := Expr.evar 1 []

/-- A mapping whose single pair has unequal non-empty domains. -/
def dBad : List (Expr × Value) :=
  [(Expr.evar 1 ["negative electrode"],
    Value.expr (Expr.evar 2 ["positive electrode"]))]

/-- A well-domained mapping holding one bare number and one
expression. -/
def dNum : List (Expr × Value) :=
  [(Expr.evar 1 [], Value.num 3),
   (Expr.evar 2 ["electrolyte"], Value.expr (Expr.evar 3 ["electrolyte"]))]

/-- A boundary-condition mapping with a numeric side value. -/
def bcsNum : List (Expr × List (String × Value)) :=
  [(cVar, [("left", Value.num 0), ("right", Value.expr (Expr.scalar 7))])]

/-- A model with one `rhs` entry and no initial condition for it. -/
def mMissingIC : BaseModel :=
  { BaseModel.empty with rhs := [(Expr.evar 1 [], Expr.scalar 5)] }

/-- A model whose single equation has spatial derivatives, with an
initial condition but no boundary condition. -/
def mMissingBC : BaseModel :=
  { BaseModel.empty with
    rhs := [(cVar, Expr.grad 7 ["electrolyte"] cVar)]
    initial_conditions := [(cVar, Expr.scalar 1)] }

/-- A model with an empty `rhs` but every other collection populated. -/
def mNoRhs : BaseModel :=
  { BaseModel.empty with
    algebraic := [Expr.grad 7 ["electrolyte"] cVar]
    initial_conditions := [(tVar, Expr.scalar 2)]
    initial_conditions_ydot := [(tVar, Expr.scalar 0)]
    boundary_conditions := [(tVar, [("left", Expr.scalar 0)])]
    «variables» := [("T", tVar)] }

/-- A submodel owning `cVar`. -/
def subA : BaseModel :=
  { BaseModel.empty with
    rhs := [(cVar, Expr.scalar 1)]
    initial_conditions := [(cVar, Expr.scalar 1)]
    «variables» := [("c", Expr.scalar 10)] }

/-- A submodel claiming the same state-variable identity as `subA`. -/
def subB : BaseModel :=
  { BaseModel.empty with
    rhs := [(cVarAlias, Expr.scalar 2)]
    initial_conditions := [(cVarAlias, Expr.scalar 2)] }

/-- A submodel owning `tVar`, rhs-disjoint from `subA`, but defining
the same derived-variable name `"c"`. -/
def subC : BaseModel :=
  { BaseModel.empty with
    rhs := [(tVar, Expr.scalar 2)]
    «variables» := [("c", Expr.scalar 20)] }

/-- A submodel owning `tVar` and disjoint from `subA` in every
collection. -/
def subD : BaseModel :=
  { BaseModel.empty with
    rhs := [(tVar, Expr.scalar 2)]
    initial_conditions := [(tVar, Expr.scalar 2)]
    boundary_conditions := [(tVar, [("left", Expr.scalar 0)])]
    «variables» := [("T", tVar)] }

section DictLemmas

variable {α β K : Type} [DecidableEq K]

theorem dmem_iff (keyOf : α → K) (d : List (α × β)) (k : α) :
    dmem keyOf d k = true ↔ keyOf k ∈ dids keyOf d := by
  simp [dmem, dids, List.any_eq_true, List.mem_map]

theorem dmem_false_iff (keyOf : α → K) (d : List (α × β)) (k : α) :
    dmem keyOf d k = false ↔ keyOf k ∉ dids keyOf d := by
  rw [← Bool.not_eq_true, dmem_iff]

omit [DecidableEq K] in
theorem length_dids (keyOf : α → K) (d : List (α × β)) :
    (dids keyOf d).length = d.length := by
  simp [dids]

theorem dfind_cons (keyOf : α → K) (x : α × β) (xs : List (α × β))
    (k : α) :
    dfind keyOf (x :: xs) k =
      if keyOf x.1 = keyOf k then some x.2 else dfind keyOf xs k := by
  by_cases h : keyOf x.1 = keyOf k <;> simp [dfind, List.find?_cons, h]

theorem find?_eq_none_of_dmem_false (keyOf : α → K) (d : List (α × β))
    (k : α) (h : dmem keyOf d k = false) :
    List.find? (fun p => decide (keyOf p.1 = keyOf k)) d = none := by
  rw [dmem_false_iff] at h
  rw [List.find?_eq_none]
  intro p hp
  simp only [decide_eq_true_eq]
  intro hc
  exact h (by simp only [dids, List.mem_map]; exact ⟨p, hp, hc⟩)

theorem dfind_eq_none_of_not_mem (keyOf : α → K) (d : List (α × β))
    (k : α) (h : dmem keyOf d k = false) : dfind keyOf d k = none := by
  simp [dfind, find?_eq_none_of_dmem_false keyOf d k h]

theorem dids_dinsert_of_not_mem (keyOf : α → K) (d : List (α × β))
    (k : α) (v : β) (h : keyOf k ∉ dids keyOf d) :
    dids keyOf (dinsert keyOf d k v) = dids keyOf d ++ [keyOf k] := by
  have hm : dmem keyOf d k = false := (dmem_false_iff keyOf d k).mpr h
  simp [dinsert, hm, dids]

theorem dfind_map_replace_self (keyOf : α → K) (k : α) (v : β) :
    ∀ d : List (α × β), dmem keyOf d k = true →
      dfind keyOf
        (d.map fun p => if keyOf p.1 = keyOf k then (p.1, v) else p) k
        = some v
  | [], h => by simp [dmem] at h
  | x :: xs, h => by
    by_cases hx : keyOf x.1 = keyOf k
    · simp [dfind_cons, hx]
    · have hxs : dmem keyOf xs k = true := by
        simpa [dmem, List.any_cons, hx] using h
      simpa [dfind_cons, hx] using dfind_map_replace_self keyOf k v xs hxs

theorem dfind_dinsert_self (keyOf : α → K) (d : List (α × β)) (k : α)
    (v : β) : dfind keyOf (dinsert keyOf d k v) k = some v := by
  by_cases hm : dmem keyOf d k
  · simpa [dinsert, hm] using dfind_map_replace_self keyOf k v d hm
  · have hm' : dmem keyOf d k = false := by simpa using hm
    have hnone := find?_eq_none_of_dmem_false keyOf d k hm'
    simp [dinsert, hm', dfind, List.find?_append, hnone, List.find?_cons]

theorem dfind_map_replace_ne (keyOf : α → K) (k k' : α) (v : β)
    (h : keyOf k' ≠ keyOf k) :
    ∀ d : List (α × β),
      dfind keyOf
        (d.map fun p => if keyOf p.1 = keyOf k then (p.1, v) else p) k'
        = dfind keyOf d k'
  | [] => by simp [dfind]
  | x :: xs => by
    have hkk : keyOf k ≠ keyOf k' := fun hc => h hc.symm
    by_cases hx : keyOf x.1 = keyOf k
    · simp [dfind_cons, hx, hkk, dfind_map_replace_ne keyOf k k' v h xs]
    · by_cases hx' : keyOf x.1 = keyOf k'
      · simp [dfind_cons, hx, hx', h]
      · simp [dfind_cons, hx, hx', dfind_map_replace_ne keyOf k k' v h xs]

theorem dfind_dinsert_ne (keyOf : α → K) (d : List (α × β)) (k k' : α)
    (v : β) (h : keyOf k' ≠ keyOf k) :
    dfind keyOf (dinsert keyOf d k v) k' = dfind keyOf d k' := by
  by_cases hm : dmem keyOf d k
  · simpa [dinsert, hm] using dfind_map_replace_ne keyOf k k' v h d
  · have hm' : dmem keyOf d k = false := by simpa using hm
    have hkk : ¬ (keyOf k = keyOf k') := fun hc => h hc.symm
    simp [dinsert, hm', dfind, List.find?_append, List.find?_cons, hkk]

end DictLemmas

section DupdateLemmas

variable {α β K : Type} [DecidableEq K]

theorem dupdate_cons (keyOf : α → K) (d : List (α × β)) (a : α × β)
    (e : List (α × β)) :
    dupdate keyOf d (a :: e) = dupdate keyOf (dinsert keyOf d a.1 a.2) e :=
  rfl

omit [DecidableEq K] in
theorem mem_dids_cons (keyOf : α → K) (a : α × β) (e : List (α × β))
    (x : K) :
    x ∈ dids keyOf (a :: e) ↔ x = keyOf a.1 ∨ x ∈ dids keyOf e := by
  simp [dids]

omit [DecidableEq K] in
theorem nodup_dids_cons (keyOf : α → K) (a : α × β) (e : List (α × β)) :
    (dids keyOf (a :: e)).Nodup ↔
      keyOf a.1 ∉ dids keyOf e ∧ (dids keyOf e).Nodup := by
  simp only [dids, List.map_cons, List.nodup_cons]

theorem dfind_dupdate_not_mem (keyOf : α → K) (k : α) :
    ∀ (e d : List (α × β)), keyOf k ∉ dids keyOf e →
      dfind keyOf (dupdate keyOf d e) k = dfind keyOf d k
  | [], _, _ => rfl
  | a :: e', d, h => by
    have h1 : keyOf k ≠ keyOf a.1 := fun hc =>
      h ((mem_dids_cons keyOf a e' (keyOf k)).mpr (Or.inl hc))
    have h2 : keyOf k ∉ dids keyOf e' := fun hc =>
      h ((mem_dids_cons keyOf a e' (keyOf k)).mpr (Or.inr hc))
    rw [dupdate_cons,
      dfind_dupdate_not_mem keyOf k e' (dinsert keyOf d a.1 a.2) h2,
      dfind_dinsert_ne keyOf d a.1 k a.2 h1]

theorem dfind_dupdate_of_mem (keyOf : α → K) :
    ∀ (e d : List (α × β)) (k : α) (v : β), (dids keyOf e).Nodup →
      (k, v) ∈ e → dfind keyOf (dupdate keyOf d e) k = some v
  | [], _, _, _, _, hmem => by simp at hmem
  | a :: e', d, k, v, hnd, hmem => by
    obtain ⟨hhead, htail⟩ := (nodup_dids_cons keyOf a e').mp hnd
    rcases List.mem_cons.mp hmem with heq | hmem'
    · have hk : keyOf k ∉ dids keyOf e' := by
        rw [← heq] at hhead
        exact hhead
      rw [dupdate_cons,
        dfind_dupdate_not_mem keyOf k e' (dinsert keyOf d a.1 a.2) hk,
        ← heq, dfind_dinsert_self]
    · rw [dupdate_cons]
      exact dfind_dupdate_of_mem keyOf e' (dinsert keyOf d a.1 a.2) k v
        htail hmem'

theorem dids_dupdate (keyOf : α → K) :
    ∀ (e d : List (α × β)), (dids keyOf e).Nodup →
      List.Disjoint (dids keyOf e) (dids keyOf d) →
      dids keyOf (dupdate keyOf d e) = dids keyOf d ++ dids keyOf e
  | [], d, _, _ => by simp [dupdate, dids]
  | a :: e', d, hnd, hdisj => by
    obtain ⟨hhead, htail⟩ := (nodup_dids_cons keyOf a e').mp hnd
    have hheadd : keyOf a.1 ∉ dids keyOf d :=
      hdisj ((mem_dids_cons keyOf a e' (keyOf a.1)).mpr (Or.inl rfl))
    have hdisj' : List.Disjoint (dids keyOf e')
        (dids keyOf (dinsert keyOf d a.1 a.2)) := by
      rw [dids_dinsert_of_not_mem keyOf d a.1 a.2 hheadd]
      intro x hx hx'
      rcases List.mem_append.mp hx' with hxd | hxa
      · exact hdisj ((mem_dids_cons keyOf a e' x).mpr (Or.inr hx)) hxd
      · rw [List.mem_singleton.mp hxa] at hx
        exact hhead hx
    have ih := dids_dupdate keyOf e' (dinsert keyOf d a.1 a.2) htail hdisj'
    rw [dupdate_cons, ih, dids_dinsert_of_not_mem keyOf d a.1 a.2 hheadd]
    simp [dids, List.append_assoc]

theorem length_dupdate (keyOf : α → K) (e d : List (α × β))
    (hnd : (dids keyOf e).Nodup)
    (hdisj : List.Disjoint (dids keyOf e) (dids keyOf d)) :
    (dupdate keyOf d e).length = d.length + e.length := by
  have h := dids_dupdate keyOf e d hnd hdisj
  have h1 := length_dids keyOf (dupdate keyOf d e)
  rw [h, List.length_append, length_dids, length_dids] at h1
  omega

end DupdateLemmas

theorem domainsOk_eq_false_iff (d : List (Expr × Expr)) :
    domainsOk d = false ↔
      ∃ p ∈ d, p.1.domain ≠ p.2.domain ∧ p.2.domain ≠ [] := by
  rw [← Bool.not_eq_true]
  simp only [domainsOk, List.all_eq_true, Bool.or_eq_true,
    decide_eq_true_eq, not_forall]
  constructor
  · rintro ⟨p, hp, h⟩
    exact ⟨p, hp, by tauto⟩
  · rintro ⟨p, hp, h1, h2⟩
    exact ⟨p, ⟨hp, by tauto⟩⟩

theorem update_cons_ok (m s : BaseModel) (rest : List BaseModel)
    (h : (dids keyId s.rhs ++ dids keyId m.rhs).Nodup) :
    BaseModel.update m (s :: rest) = (mergeDicts m s).update rest := by
  simp [BaseModel.update, updateOne, h]

theorem update_cons_err (m s : BaseModel) (rest : List BaseModel)
    (h : ¬ (dids keyId s.rhs ++ dids keyId m.rhs).Nodup) :
    BaseModel.update m (s :: rest) =
      (m, some (PyError.modelError "duplicate variables")) := by
  simp [BaseModel.update, updateOne, h]

/-- C4: each of the `rhs`, `initial_conditions` and
`initial_conditions_ydot` setters raises, synchronously at assignment
(the error is part of the call's result), a `DomainError` naming the
offending registry exactly when, after numeric values are lifted to
Scalars, some (variable, equation) pair has `variable.domain ≠
equation.domain` with `equation.domain` non-empty. -/
theorem setter_domain_error_iff (m : BaseModel) (d : List (Expr × Value)) :
    ((m.set_rhs d).2.2 = some (PyError.domainError (domMsg "rhs"))
      ↔ ∃ p ∈ liftDict d, p.1.domain ≠ p.2.domain ∧ p.2.domain ≠ [])
    ∧ ((m.set_initial_conditions d).2.2
          = some (PyError.domainError (domMsg "initial_conditions"))
      ↔ ∃ p ∈ liftDict d, p.1.domain ≠ p.2.domain ∧ p.2.domain ≠ [])
    ∧ ((m.set_initial_conditions_ydot d).2.2
          = some (PyError.domainError (domMsg "initial_conditions_ydot"))
      ↔ ∃ p ∈ liftDict d, p.1.domain ≠ p.2.domain ∧ p.2.domain ≠ []) := by
  by_cases h : domainsOk (liftDict d)
  · have hnot : ¬ ∃ p ∈ liftDict d,
        p.1.domain ≠ p.2.domain ∧ p.2.domain ≠ [] := by
      rw [← domainsOk_eq_false_iff]
      simp [h]
    simp [BaseModel.set_rhs, BaseModel.set_initial_conditions,
      BaseModel.set_initial_conditions_ydot, set_dict, h, hnot]
  · have hex := (domainsOk_eq_false_iff (liftDict d)).mp
      (by simpa using h)
    simp [BaseModel.set_rhs, BaseModel.set_initial_conditions,
      BaseModel.set_initial_conditions_ydot, set_dict, h, hex]

/-- C5: when a setter call fails on a domain-inconsistent mapping, the
registry is left exactly as before the call: the model component of the
result is the unchanged receiver. -/
theorem setter_failure_frame (m : BaseModel) (d : List (Expr × Value)) :
    ((m.set_rhs d).2.2.isSome = true → (m.set_rhs d).2.1 = m)
    ∧ ((m.set_initial_conditions d).2.2.isSome = true →
        (m.set_initial_conditions d).2.1 = m)
    ∧ ((m.set_initial_conditions_ydot d).2.2.isSome = true →
        (m.set_initial_conditions_ydot d).2.1 = m) := by
  by_cases h : domainsOk (liftDict d) <;>
    simp [BaseModel.set_rhs, BaseModel.set_initial_conditions,
      BaseModel.set_initial_conditions_ydot, set_dict, h]

/-- Closed witness for C5: the failing `rhs` assignment of `dBad` leaves
the empty model unchanged. -/
theorem setter_failure_frame_witness :
    (BaseModel.empty.set_rhs dBad).2.1 = BaseModel.empty :=
  (setter_failure_frame BaseModel.empty dBad).1 (by decide)

/-- C6: after a successful assignment every entry is stored lifted: a
bare numeric value is stored as a `Scalar` with empty domain and the
same numeric value, and an expression value is stored unchanged; the
same lifting applies to the side values of the `boundary_conditions`
setter. -/
theorem setter_numeric_lifting (m : BaseModel) (d : List (Expr × Value))
    (bcs : List (Expr × List (String × Value))) :
    ((m.set_rhs d).2.2 = none →
      ∀ p ∈ d, (p.1, liftValue p.2) ∈ (m.set_rhs d).2.1.rhs)
    ∧ ((m.set_initial_conditions d).2.2 = none →
      ∀ p ∈ d, (p.1, liftValue p.2)
        ∈ (m.set_initial_conditions d).2.1.initial_conditions)
    ∧ ((m.set_initial_conditions_ydot d).2.2 = none →
      ∀ p ∈ d, (p.1, liftValue p.2)
        ∈ (m.set_initial_conditions_ydot d).2.1.initial_conditions_ydot)
    ∧ (∀ q ∈ bcs, (q.1, q.2.map fun r => (r.1, liftValue r.2))
        ∈ (m.set_boundary_conditions bcs).boundary_conditions)
    ∧ (∀ x : Int, liftValue (Value.num x) = Expr.scalar x
        ∧ (Expr.scalar x).domain = []
        ∧ (Expr.scalar x).scalarValue = some x)
    ∧ (∀ e : Expr, liftValue (Value.expr e) = e) := by
  refine ⟨?_, ?_, ?_, ?_, fun x => ⟨rfl, rfl, rfl⟩, fun e => rfl⟩
  · intro hok p hp
    by_cases h : domainsOk (liftDict d)
    · simp only [BaseModel.set_rhs, set_dict, h, if_pos]
      exact List.mem_map_of_mem _ hp
    · simp [BaseModel.set_rhs, set_dict, h] at hok
  · intro hok p hp
    by_cases h : domainsOk (liftDict d)
    · simp only [BaseModel.set_initial_conditions, set_dict, h, if_pos]
      exact List.mem_map_of_mem _ hp
    · simp [BaseModel.set_initial_conditions, set_dict, h] at hok
  · intro hok p hp
    by_cases h : domainsOk (liftDict d)
    · simp only [BaseModel.set_initial_conditions_ydot, set_dict, h,
        if_pos]
      exact List.mem_map_of_mem _ hp
    · simp [BaseModel.set_initial_conditions_ydot, set_dict, h] at hok
  · intro q hq
    simp only [BaseModel.set_boundary_conditions]
    exact List.mem_map_of_mem _ hq

/-- Closed witness for C6: storing `dNum` in the empty model's `rhs`
stores the bare number 3 as `Scalar 3`. -/
theorem setter_numeric_lifting_witness :
    (Expr.evar 1 [], Expr.scalar 3)
      ∈ (BaseModel.empty.set_rhs dNum).2.1.rhs :=
  (setter_numeric_lifting BaseModel.empty dNum bcsNum).1 (by decide)
    (Expr.evar 1 [], Value.num 3) (by decide)

/-- C9: a setter call hands back the caller's mapping with its numeric
values already replaced by Scalars — also when it raises the
`DomainError`, since the in-place lifting loop precedes the check —
and on success the mapping stored in the registry is exactly that
mutated caller mapping, not a copy with different contents, while on
failure the registry is unchanged though the caller's mapping is
already mutated. -/
theorem setter_stores_mutated_input (m : BaseModel)
    (d : List (Expr × Value)) :
    ((m.set_rhs d).1 = liftDict d
      ∧ ((m.set_rhs d).2.2 = none →
          (m.set_rhs d).2.1.rhs = (m.set_rhs d).1)
      ∧ ((m.set_rhs d).2.2.isSome = true → (m.set_rhs d).2.1 = m))
    ∧ ((m.set_initial_conditions d).1 = liftDict d
      ∧ ((m.set_initial_conditions d).2.2 = none →
          (m.set_initial_conditions d).2.1.initial_conditions
            = (m.set_initial_conditions d).1)
      ∧ ((m.set_initial_conditions d).2.2.isSome = true →
          (m.set_initial_conditions d).2.1 = m))
    ∧ ((m.set_initial_conditions_ydot d).1 = liftDict d
      ∧ ((m.set_initial_conditions_ydot d).2.2 = none →
          (m.set_initial_conditions_ydot d).2.1.initial_conditions_ydot
            = (m.set_initial_conditions_ydot d).1)
      ∧ ((m.set_initial_conditions_ydot d).2.2.isSome = true →
          (m.set_initial_conditions_ydot d).2.1 = m)) := by
  by_cases h : domainsOk (liftDict d) <;>
    simp [BaseModel.set_rhs, BaseModel.set_initial_conditions,
      BaseModel.set_initial_conditions_ydot, set_dict, h]

/-- Closed witness for C9: on the failing assignment of `dBad`, the
caller's mapping has already been lifted even though the registry is
unchanged. -/
theorem setter_stores_mutated_input_witness :
    (BaseModel.empty.set_rhs dBad).1 = liftDict dBad
      ∧ (BaseModel.empty.set_rhs dBad).2.1 = BaseModel.empty :=
  ⟨(setter_stores_mutated_input BaseModel.empty dBad).1.1,
   (setter_stores_mutated_input BaseModel.empty dBad).1.2.2 (by decide)⟩

/-- C10: with an empty `rhs`, `check_well_posedness` succeeds whatever
the other collections hold — both loops range over `rhs` only, so
`algebraic` equations are never checked. -/
theorem check_well_posedness_empty_rhs (m : BaseModel)
    (h : m.rhs = []) : m.check_well_posedness = Except.ok () := by
  simp [BaseModel.check_well_posedness, h, icPass, bcPass]

/-- Closed witness for C10: the model `mNoRhs`, with nonempty
`algebraic`, initial/boundary conditions and variables but empty `rhs`,
passes the check. -/
theorem check_well_posedness_empty_rhs_witness :
    mNoRhs.check_well_posedness = Except.ok () :=
  check_well_posedness_empty_rhs mNoRhs (by decide)

/-- C8: `update` never touches the host's `algebraic` sequence or its
`initial_conditions_ydot` mapping, whether or not an error is raised. -/
theorem update_preserves_algebraic_ydot (m : BaseModel)
    (subs : List BaseModel) :
    ((m.update subs).1.algebraic = m.algebraic)
    ∧ ((m.update subs).1.initial_conditions_ydot
        = m.initial_conditions_ydot) := by
  induction subs generalizing m with
  | nil => exact ⟨rfl, rfl⟩
  | cons s rest ih =>
    by_cases h : (dids keyId s.rhs ++ dids keyId m.rhs).Nodup
    · rw [update_cons_ok m s rest h]
      have := ih (mergeDicts m s)
      simpa [mergeDicts] using this
    · rw [update_cons_err m s rest h]
      exact ⟨rfl, rfl⟩

theorem icPass_ok_of_all_mem (ics : List (Expr × Expr)) :
    ∀ rhs : List (Expr × Expr),
      (∀ p ∈ rhs, dmem keyId ics p.1 = true) →
      icPass ics rhs = Except.ok ()
  | [], _ => rfl
  | (v, eqn) :: rest, h => by
    have hv : dmem keyId ics v = true := h (v, eqn) (by simp)
    have hrest : ∀ p ∈ rest, dmem keyId ics p.1 = true := fun p hp =>
      h p (List.mem_cons_of_mem _ hp)
    simp [icPass, hv, icPass_ok_of_all_mem ics rest hrest]

theorem icPass_error_characterization (ics : List (Expr × Expr)) :
    ∀ rhs : List (Expr × Expr),
      ((∃ err, icPass ics rhs = Except.error err)
        ↔ ∃ p ∈ rhs, dmem keyId ics p.1 = false)
      ∧ (∀ err, icPass ics rhs = Except.error err →
          ∃ p ∈ rhs, dmem keyId ics p.1 = false
            ∧ err = PyError.modelError (icMsg p.1))
  | [] => by
    constructor
    · constructor
      · rintro ⟨err, herr⟩
        simp [icPass] at herr
      · rintro ⟨p, hp, _⟩
        simp at hp
    · intro err herr
      simp [icPass] at herr
  | (v, eqn) :: rest => by
    have ih := icPass_error_characterization ics rest
    by_cases hv : dmem keyId ics v = true
    · constructor
      · constructor
        · rintro ⟨err, herr⟩
          rw [icPass, if_pos hv] at herr
          obtain ⟨p, hp, hmem⟩ := ih.1.mp ⟨err, herr⟩
          exact ⟨p, List.mem_cons_of_mem _ hp, hmem⟩
        · rintro ⟨p, hp, hmem⟩
          rcases List.mem_cons.mp hp with rfl | hp'
          · rw [hv] at hmem
            cases hmem
          · obtain ⟨err, herr⟩ := ih.1.mpr ⟨p, hp', hmem⟩
            exact ⟨err, by rw [icPass, if_pos hv]; exact herr⟩
      · intro err herr
        rw [icPass, if_pos hv] at herr
        obtain ⟨p, hp, hmem, hname⟩ := ih.2 err herr
        exact ⟨p, List.mem_cons_of_mem _ hp, hmem, hname⟩
    · have hv' : dmem keyId ics v = false := by simpa using hv
      constructor
      · constructor
        · rintro ⟨err, _⟩
          exact ⟨(v, eqn), by simp, hv'⟩
        · rintro ⟨p, hp, hmem⟩
          exact ⟨PyError.modelError (icMsg v),
            by rw [icPass, if_neg hv]⟩
      · intro err herr
        rw [icPass, if_neg hv] at herr
        refine ⟨(v, eqn), by simp, hv', ?_⟩
        cases herr
        rfl

/-- C3: the first pass of `check_well_posedness` raises a `ModelError`
naming a missing variable exactly when some key of `rhs` is not a key
of `initial_conditions`; and a first-pass error is the overall result,
so the boundary-condition pass is never reached after it. -/
theorem check_well_posedness_first_pass (m : BaseModel) :
    ((∃ err, icPass m.initial_conditions m.rhs = Except.error err)
      ↔ ∃ p ∈ m.rhs, dmem keyId m.initial_conditions p.1 = false)
    ∧ (∀ err, icPass m.initial_conditions m.rhs = Except.error err →
        m.check_well_posedness = Except.error err
        ∧ ∃ p ∈ m.rhs, dmem keyId m.initial_conditions p.1 = false
            ∧ err = PyError.modelError (icMsg p.1)) := by
  have hchar := icPass_error_characterization m.initial_conditions m.rhs
  refine ⟨hchar.1, fun err herr => ⟨?_, hchar.2 err herr⟩⟩
  rw [BaseModel.check_well_posedness, herr]

/-- Closed witness for C3: `mMissingIC` has an `rhs` key with no
initial condition, and `check_well_posedness` returns exactly the
missing-initial-condition error for it. -/
theorem check_well_posedness_first_pass_witness :
    mMissingIC.check_well_posedness
      = Except.error (PyError.modelError (icMsg (Expr.evar 1 []))) :=
  ((check_well_posedness_first_pass mMissingIC).2
    (PyError.modelError (icMsg (Expr.evar 1 []))) (by decide)).1

theorem bcPass_error_characterization
    (bcs : List (Expr × List (String × Expr))) :
    ∀ rhs : List (Expr × Expr),
      ((∃ err, bcPass bcs rhs = Except.error err)
        ↔ ∃ p ∈ rhs, p.2.hasSpatialDerivatives = true
            ∧ bcCovered bcs p.1 = false)
      ∧ (∀ err, bcPass bcs rhs = Except.error err →
          ∃ p ∈ rhs, p.2.hasSpatialDerivatives = true
            ∧ bcCovered bcs p.1 = false
            ∧ err = PyError.modelError (bcMsg p.1 p.2))
  | [] => by
    constructor
    · constructor
      · rintro ⟨err, herr⟩
        simp [bcPass] at herr
      · rintro ⟨p, hp, _⟩
        simp at hp
    · intro err herr
      simp [bcPass] at herr
  | (v, eqn) :: rest => by
    have ih := bcPass_error_characterization bcs rest
    by_cases hs : eqn.hasSpatialDerivatives = true
    · by_cases hc : bcCovered bcs v = true
      · constructor
        · constructor
          · rintro ⟨err, herr⟩
            rw [bcPass, if_pos hs, if_pos hc] at herr
            obtain ⟨p, hp, h1, h2⟩ := ih.1.mp ⟨err, herr⟩
            exact ⟨p, List.mem_cons_of_mem _ hp, h1, h2⟩
          · rintro ⟨p, hp, h1, h2⟩
            rcases List.mem_cons.mp hp with rfl | hp'
            · rw [hc] at h2
              cases h2
            · obtain ⟨err, herr⟩ := ih.1.mpr ⟨p, hp', h1, h2⟩
              exact ⟨err, by rw [bcPass, if_pos hs, if_pos hc]; exact herr⟩
        · intro err herr
          rw [bcPass, if_pos hs, if_pos hc] at herr
          obtain ⟨p, hp, h1, h2, h3⟩ := ih.2 err herr
          exact ⟨p, List.mem_cons_of_mem _ hp, h1, h2, h3⟩
      · have hc' : bcCovered bcs v = false := by simpa using hc
        constructor
        · constructor
          · rintro ⟨err, _⟩
            exact ⟨(v, eqn), by simp, hs, hc'⟩
          · rintro ⟨p, hp, h1, h2⟩
            exact ⟨PyError.modelError (bcMsg v eqn),
              by rw [bcPass, if_pos hs, if_neg hc]⟩
        · intro err herr
          rw [bcPass, if_pos hs, if_neg hc] at herr
          refine ⟨(v, eqn), by simp, hs, hc', ?_⟩
          cases herr
          rfl
    · constructor
      · constructor
        · rintro ⟨err, herr⟩
          rw [bcPass, if_neg hs] at herr
          obtain ⟨p, hp, h1, h2⟩ := ih.1.mp ⟨err, herr⟩
          exact ⟨p, List.mem_cons_of_mem _ hp, h1, h2⟩
        · rintro ⟨p, hp, h1, h2⟩
          rcases List.mem_cons.mp hp with rfl | hp'
          · exact absurd h1 hs
          · obtain ⟨err, herr⟩ := ih.1.mpr ⟨p, hp', h1, h2⟩
            exact ⟨err, by rw [bcPass, if_neg hs]; exact herr⟩
      · intro err herr
        rw [bcPass, if_neg hs] at herr
        obtain ⟨p, hp, h1, h2, h3⟩ := ih.2 err herr
        exact ⟨p, List.mem_cons_of_mem _ hp, h1, h2, h3⟩

/-- C2: provided every `rhs` key has an initial condition (so the first
pass raises nothing), `check_well_posedness` fails exactly when some
`(v, eqn)` pair of `rhs` has `eqn.has_spatial_derivatives()` true while
no `boundary_conditions` key contains, anywhere in its `pre_order`
traversal, a sub-expression whose `id` equals `v.id`; and every such
failure is the `ModelError` naming that variable and its equation. -/
theorem check_well_posedness_bc_pass (m : BaseModel)
    (h1 : ∀ p ∈ m.rhs, dmem keyId m.initial_conditions p.1 = true) :
    ((∃ err, m.check_well_posedness = Except.error err)
      ↔ ∃ p ∈ m.rhs, p.2.hasSpatialDerivatives = true
          ∧ bcCovered m.boundary_conditions p.1 = false)
    ∧ (∀ err, m.check_well_posedness = Except.error err →
        ∃ p ∈ m.rhs, p.2.hasSpatialDerivatives = true
          ∧ bcCovered m.boundary_conditions p.1 = false
          ∧ err = PyError.modelError (bcMsg p.1 p.2)) := by
  have hic := icPass_ok_of_all_mem m.initial_conditions m.rhs h1
  have hcw : m.check_well_posedness = bcPass m.boundary_conditions m.rhs := by
    rw [BaseModel.check_well_posedness, hic]
  rw [hcw]
  exact bcPass_error_characterization m.boundary_conditions m.rhs

/-- Closed witness for C2: `mMissingBC` has a spatially-derivative
equation for `cVar`, an initial condition for it, and no boundary
conditions, so the check fails with the missing-boundary-condition
error. -/
theorem check_well_posedness_bc_pass_witness :
    ∃ err, mMissingBC.check_well_posedness = Except.error err :=
  (check_well_posedness_bc_pass mMissingBC (by decide)).1.mpr
    ⟨(cVar, Expr.grad 7 ["electrolyte"] cVar), by decide, by decide,
      by decide⟩

theorem update_ok_nodup :
    ∀ (subs : List BaseModel) (m : BaseModel),
      (dids keyId m.rhs).Nodup →
      (m.update subs).2 = none →
      (dids keyId m.rhs ++ (subs.flatMap fun s => dids keyId s.rhs)).Nodup
  | [], m, hm, _ => by simpa using hm
  | s :: rest, m, hm, hok => by
    by_cases h : (dids keyId s.rhs ++ dids keyId m.rhs).Nodup
    · rw [update_cons_ok m s rest h] at hok
      obtain ⟨hs, hm', hdisj⟩ := List.nodup_append.mp h
      have hids : dids keyId (mergeDicts m s).rhs
          = dids keyId m.rhs ++ dids keyId s.rhs := by
        show dids keyId (dupdate keyId m.rhs s.rhs) = _
        exact dids_dupdate keyId s.rhs m.rhs hs hdisj
      have hmerged : (dids keyId (mergeDicts m s).rhs).Nodup := by
        rw [hids]
        exact List.nodup_append.mpr ⟨hm', hs, hdisj.symm⟩
      have ih := update_ok_nodup rest (mergeDicts m s) hmerged hok
      rw [hids, List.append_assoc] at ih
      simpa [List.flatMap_cons] using ih
    · rw [update_cons_err m s rest h] at hok
      cases hok
  termination_by subs => subs.length

theorem update_error_value :
    ∀ (subs : List BaseModel) (m : BaseModel) (e : PyError),
      (m.update subs).2 = some e →
      e = PyError.modelError "duplicate variables"
  | [], m, e, h => by simp [BaseModel.update] at h
  | s :: rest, m, e, h => by
    by_cases hn : (dids keyId s.rhs ++ dids keyId m.rhs).Nodup
    · rw [update_cons_ok m s rest hn] at h
      exact update_error_value rest (mergeDicts m s) e h
    · rw [update_cons_err m s rest hn] at h
      simp only [Option.some.injEq] at h
      exact h.symm
  termination_by subs => subs.length

/-- C1 (amended): when the key dictionaries are well-formed (the host's
`rhs` keys carry pairwise distinct identity tokens, as a Python
dictionary with identity-based key equality guarantees) and the combined
identity set of the host's and all the submodels' `rhs` keys contains a
duplicate, `update` fails with `ModelError("duplicate variables")`.
Each duplicate is detected before the offending submodel itself is
merged — so a single-submodel call leaves the host untouched — but
submodels earlier in the sequence have already been merged by the time
a later duplicate is detected (see the counterexample for the partial
merge). -/
theorem update_duplicate_amended (host : BaseModel)
    (subs : List BaseModel)
    (hhost : (dids keyId host.rhs).Nodup)
    (hdup : ¬ (dids keyId host.rhs
        ++ (subs.flatMap fun s => dids keyId s.rhs)).Nodup) :
    (host.update subs).2 = some (PyError.modelError "duplicate variables")
    ∧ ∀ s, subs = [s] → (host.update subs).1 = host := by
  constructor
  · cases hres : (host.update subs).2 with
    | none => exact absurd (update_ok_nodup subs host hhost hres) hdup
    | some e =>
      exact congrArg some (update_error_value subs host e hres)
  · rintro s rfl
    by_cases hn : (dids keyId s.rhs ++ dids keyId host.rhs).Nodup
    · exfalso
      have hnone : (host.update [s]).2 = none := by
        rw [update_cons_ok host s [] hn]
        rfl
      exact hdup (update_ok_nodup [s] host hhost hnone)
    · rw [update_cons_err host s [] hn]

/-- Counterexample to C1 as stated: with the duplicate identity between
the two submodels `subA` and `subB`, `update` does fail with the
duplicate-variables `ModelError`, but `subA` was already merged before
the failure, so the host's `rhs` is NOT left as before the call — the
claimed "no partial merge" is violated. -/
theorem update_duplicate_cex :
    (¬ (dids keyId BaseModel.empty.rhs
        ++ ([subA, subB].flatMap fun s => dids keyId s.rhs)).Nodup)
    ∧ (BaseModel.empty.update [subA, subB]).2
        = some (PyError.modelError "duplicate variables")
    ∧ (BaseModel.empty.update [subA, subB]).1.rhs
        ≠ BaseModel.empty.rhs := by
  decide

/-- Closed witness for the amended C1, at the same duplicate instance. -/
theorem update_duplicate_amended_witness :
    (BaseModel.empty.update [subA, subB]).2
      = some (PyError.modelError "duplicate variables") :=
  (update_duplicate_amended BaseModel.empty [subA, subB]
    (by decide) (by decide)).1

theorem mem_dids_of_mem {α β K : Type} (keyOf : α → K)
    {d : List (α × β)} {p : α × β} (hp : p ∈ d) :
    keyOf p.1 ∈ dids keyOf d :=
  List.mem_map_of_mem _ hp

/-- Counterexample to C7 as stated: `subA` and `subC` have rhs key sets
disjoint by identity from each other and from the (empty) host, so
`update` succeeds — but both define the derived variable `"c"`, and
after the merge only `subC`'s value survives: `subA`'s original
`variables` pair is not retrievable from the host unchanged. -/
theorem update_disjoint_cex :
    ((dids keyId BaseModel.empty.rhs ++ dids keyId subA.rhs
        ++ dids keyId subC.rhs).Nodup)
    ∧ (BaseModel.empty.update [subA, subC]).2 = none
    ∧ ("c", Expr.scalar 10) ∈ subA.«variables»
    ∧ dfind id (BaseModel.empty.update [subA, subC]).1.«variables» "c"
        ≠ some (Expr.scalar 10) := by
  decide

/-- C7 (amended): for submodels whose rhs key identity sets are disjoint
from each other and from the host, `update` succeeds and the host's
`rhs` size is the sum of the three sizes; every submodel `rhs` pair is
retrievable unchanged, and — provided additionally the two submodels
collide on no `initial_conditions`, `boundary_conditions` or
`variables` key (each dictionary having unique keys, as Python
guarantees) — so is every pair of those collections.  Without that
proviso a key shared by both submodels keeps only the later submodel's
value (last-write-wins), as the counterexample shows. -/
theorem update_disjoint_amended (host a b : BaseModel)
    (hrhs : (dids keyId host.rhs ++ dids keyId a.rhs
        ++ dids keyId b.rhs).Nodup)
    (hic : (dids keyId a.initial_conditions
        ++ dids keyId b.initial_conditions).Nodup)
    (hbc : (dids keyId a.boundary_conditions
        ++ dids keyId b.boundary_conditions).Nodup)
    (hvar : (dids id a.«variables» ++ dids id b.«variables»).Nodup) :
    (host.update [a, b]).2 = none
    ∧ (host.update [a, b]).1.rhs.length
        = host.rhs.length + a.rhs.length + b.rhs.length
    ∧ (∀ p ∈ a.rhs,
        dfind keyId (host.update [a, b]).1.rhs p.1 = some p.2)
    ∧ (∀ p ∈ b.rhs,
        dfind keyId (host.update [a, b]).1.rhs p.1 = some p.2)
    ∧ (∀ p ∈ a.initial_conditions,
        dfind keyId (host.update [a, b]).1.initial_conditions p.1
          = some p.2)
    ∧ (∀ p ∈ b.initial_conditions,
        dfind keyId (host.update [a, b]).1.initial_conditions p.1
          = some p.2)
    ∧ (∀ p ∈ a.boundary_conditions,
        dfind keyId (host.update [a, b]).1.boundary_conditions p.1
          = some p.2)
    ∧ (∀ p ∈ b.boundary_conditions,
        dfind keyId (host.update [a, b]).1.boundary_conditions p.1
          = some p.2)
    ∧ (∀ p ∈ a.«variables»,
        dfind id (host.update [a, b]).1.«variables» p.1 = some p.2)
    ∧ (∀ p ∈ b.«variables»,
        dfind id (host.update [a, b]).1.«variables» p.1 = some p.2) := by
  obtain ⟨hha, hb, hdisj_hab⟩ := List.nodup_append.mp hrhs
  obtain ⟨hh, ha, hdisj_ha⟩ := List.nodup_append.mp hha
  obtain ⟨hica, hicb, hicd⟩ := List.nodup_append.mp hic
  obtain ⟨hbca, hbcb, hbcd⟩ := List.nodup_append.mp hbc
  obtain ⟨hva, hvb, hvd⟩ := List.nodup_append.mp hvar
  have h1 : (dids keyId a.rhs ++ dids keyId host.rhs).Nodup :=
    List.nodup_append.mpr ⟨ha, hh, hdisj_ha.symm⟩
  have hids1 : dids keyId (mergeDicts host a).rhs
      = dids keyId host.rhs ++ dids keyId a.rhs :=
    dids_dupdate keyId a.rhs host.rhs ha hdisj_ha.symm
  have h2 : (dids keyId b.rhs
      ++ dids keyId (mergeDicts host a).rhs).Nodup := by
    rw [hids1]
    exact List.nodup_append.mpr ⟨hb, hha, hdisj_hab.symm⟩
  have hrun : host.update [a, b]
      = (mergeDicts (mergeDicts host a) b, none) := by
    rw [update_cons_ok host a [b] h1,
      update_cons_ok (mergeDicts host a) b [] h2]
    rfl
  rw [hrun]
  have hdisj_b_m1 : List.Disjoint (dids keyId b.rhs)
      (dids keyId (mergeDicts host a).rhs) := by
    rw [hids1]
    exact hdisj_hab.symm
  refine ⟨rfl, ?_, ?_, ?_, ?_, ?_, ?_, ?_, ?_, ?_⟩
  · show (dupdate keyId (mergeDicts host a).rhs b.rhs).length = _
    rw [length_dupdate keyId b.rhs (mergeDicts host a).rhs hb hdisj_b_m1]
    show (dupdate keyId host.rhs a.rhs).length + _ = _
    rw [length_dupdate keyId a.rhs host.rhs ha hdisj_ha.symm]
  · intro p hp
    have hpb : keyId p.1 ∉ dids keyId b.rhs := fun hc =>
      hdisj_hab (List.mem_append_right _ (mem_dids_of_mem keyId hp)) hc
    show dfind keyId
      (dupdate keyId (mergeDicts host a).rhs b.rhs) p.1 = some p.2
    rw [dfind_dupdate_not_mem keyId p.1 b.rhs _ hpb]
    exact dfind_dupdate_of_mem keyId a.rhs host.rhs p.1 p.2 ha hp
  · intro p hp
    exact dfind_dupdate_of_mem keyId b.rhs (mergeDicts host a).rhs
      p.1 p.2 hb hp
  · intro p hp
    have hpb : keyId p.1 ∉ dids keyId b.initial_conditions := fun hc =>
      hicd (mem_dids_of_mem keyId hp) hc
    show dfind keyId (dupdate keyId
      (mergeDicts host a).initial_conditions b.initial_conditions) p.1
      = some p.2
    rw [dfind_dupdate_not_mem keyId p.1 b.initial_conditions _ hpb]
    exact dfind_dupdate_of_mem keyId a.initial_conditions
      host.initial_conditions p.1 p.2 hica hp
  · intro p hp
    exact dfind_dupdate_of_mem keyId b.initial_conditions
      (mergeDicts host a).initial_conditions p.1 p.2 hicb hp
  · intro p hp
    have hpb : keyId p.1 ∉ dids keyId b.boundary_conditions := fun hc =>
      hbcd (mem_dids_of_mem keyId hp) hc
    show dfind keyId (dupdate keyId
      (mergeDicts host a).boundary_conditions b.boundary_conditions) p.1
      = some p.2
    rw [dfind_dupdate_not_mem keyId p.1 b.boundary_conditions _ hpb]
    exact dfind_dupdate_of_mem keyId a.boundary_conditions
      host.boundary_conditions p.1 p.2 hbca hp
  · intro p hp
    exact dfind_dupdate_of_mem keyId b.boundary_conditions
      (mergeDicts host a).boundary_conditions p.1 p.2 hbcb hp
  · intro p hp
    have hpb : p.1 ∉ dids id b.«variables» := fun hc =>
      hvd (mem_dids_of_mem id hp) hc
    show dfind id (dupdate id
      (mergeDicts host a).«variables» b.«variables») p.1 = some p.2
    rw [dfind_dupdate_not_mem id p.1 b.«variables» _ hpb]
    exact dfind_dupdate_of_mem id a.«variables» host.«variables»
      p.1 p.2 hva hp
  · intro p hp
    exact dfind_dupdate_of_mem id b.«variables»
      (mergeDicts host a).«variables» p.1 p.2 hvb hp

/-- Closed witness for the amended C7: composing `subA` and `subD`
(disjoint in every collection) into the empty host succeeds with the
sizes adding up. -/
theorem update_disjoint_amended_witness :
    (BaseModel.empty.update [subA, subD]).2 = none
    ∧ (BaseModel.empty.update [subA, subD]).1.rhs.length
        = BaseModel.empty.rhs.length + subA.rhs.length
          + subD.rhs.length :=
  ⟨(update_disjoint_amended BaseModel.empty subA subD
      (by decide) (by decide) (by decide) (by decide)).1,
   (update_disjoint_amended BaseModel.empty subA subD
      (by decide) (by decide) (by decide) (by decide)).2.1⟩
